import Mathlib

/-!
Verification development for the voice-agent backend (src/app/main.py).

The file shallowly embeds the components of the WebSocket session manager:
the terminal-phrase detector (the compiled regex in downstream_task), the
configuration handshake loop, the upstream pump's message handling, the
downstream pump's event loop, and a small-step model of the concurrent
streaming phase (both pumps plus the gather/finally coordinator).
-/

/-! ## Character classes of the terminal-phrase regex

The pattern compiled in downstream_task is
  r'\b(good\s*bye|goodbye|farewell|lesson\s*complete|end\s*of\s*lesson)\b'
with re.IGNORECASE.  Word characters are those of \b over ASCII text
([A-Za-z0-9_]); \s is ASCII whitespace. -/

def isWordChar (c : Char) : Bool := c.isAlphanum || c = '_'

def isSpaceChar (c : Char) : Bool :=
  c = ' ' || c = '\t' || c = '\n' || c = '\x0b' || c = '\x0c' || c = '\r'

/-- Match one literal word of the pattern case-insensitively against the
front of the text, returning the remainder on success.  The pattern words
are stored lowercase; re.IGNORECASE folds the text via toLower. -/
def matchWord : List Char → List Char → Option (List Char)
  | [], rest => some rest
  | _ :: _, [] => none
  | w :: ws, c :: cs => if c.toLower = w then matchWord ws cs else none

/-- Match a regex alternative, its words separated by \s* (zero or more
whitespace characters).  Since every word starts with a letter, the greedy
skip of all whitespace between words is equivalent to the regex backtracking
semantics of \s*. -/
def matchPhrase : List (List Char) → List Char → Option (List Char)
  | [], rest => some rest
  | [w], rest => matchWord w rest
  | w :: w' :: ws, rest =>
      (matchWord w rest).bind fun r => matchPhrase (w' :: ws) (r.dropWhile isSpaceChar)

/-- The five alternatives of the regex group, each as its list of literal
words (the \s* separators are implicit between consecutive words). -/
def endVocab : List (List (List Char)) :=
  [["good".data, "bye".data],
   ["goodbye".data],
   ["farewell".data],
   ["lesson".data, "complete".data],
   ["end".data, "of".data, "lesson".data]]

/-- The closing \b of the pattern: every alternative ends in a letter, so the
boundary holds exactly when the remainder is empty or starts with a non-word
character. -/
def tailBoundary : List Char → Bool
  | [] => true
  | c :: _ => !isWordChar c

/-- Does some alternative of the group match at the front of the text, with
the closing word boundary satisfied? -/
def phraseHere (l : List Char) : Bool :=
  endVocab.any fun ph =>
    match matchPhrase ph l with
    | some rest => tailBoundary rest
    | none => false

/-- The opening \b of the pattern: every alternative starts with a letter, so
the boundary holds exactly when the preceding character (if any) is not a
word character. -/
def headBoundary : Option Char → Bool
  | none => true
  | some p => !isWordChar p

/-- re.search over the text: try the group at every position, threading the
previous character for the opening word boundary. -/
def searchTerminal : Option Char → List Char → Bool
  | _, [] => false
  | prev, c :: cs => (headBoundary prev && phraseHere (c :: cs)) || searchTerminal (some c) cs

/-- The termination detector of downstream_task: end_pattern.search(text) is
truthy.  (Named after the spec contract is_terminal; the source inlines it as
a compiled regex.) -/
def is_terminal (s : String) : Bool := searchTerminal none s.data

/-! ## Agent events (the downstream pump's input)

An ADK event may carry content; content carries parts; a part may carry
text.  downstream_task guards each level (hasattr/None/empty-string
truthiness) before running the regex. -/

structure TextPart where
  text : Option String
deriving DecidableEq

structure EventContent where
  parts : List TextPart
deriving DecidableEq

structure Event where
  content : Option EventContent
deriving DecidableEq

/-- One part triggers the end check when part.text is present, truthy
(non-empty), and the regex finds a match in it. -/
def partTriggers (p : TextPart) : Bool :=
  match p.text with
  | none => false
  | some t => (!(t == "")) && is_terminal t

/-- should_end for a whole event: content present and some part triggers. -/
def eventTerminal (ev : Event) : Bool :=
  match ev.content with
  | none => false
  | some c => c.parts.any partTriggers

example : is_terminal "Goodbye, see you!" = true := by decide
example : is_terminal "goodbyeville" = false := by decide
example : is_terminal "the LESSON   COMPLETE now" = true := by decide
example : is_terminal "good  bye" = true := by decide
example : is_terminal "farewells" = false := by decide
example : is_terminal "Great session! GOOD BYE" = true := by decide
example : is_terminal "end of   lesson." = true := by decide

/-! ## The spec's characterization of the detector

The spec (§4.3) describes is_terminal as a case-insensitive, whole-word
match against the fixed vocabulary, tolerant of embedded whitespace
variation inside a phrase.  The listing of both "good bye" and "goodbye"
shows that an embedded gap may be any run of whitespace, including the
empty one.  SpecPhraseOcc and specTerminal below are written from those
words, to be compared with the regex embedding above. -/

/-- A stretch of text is an occurrence of a vocabulary phrase when it is the
phrase's words in order, each matched case-insensitively, separated by runs
of whitespace (possibly empty). -/
inductive SpecPhraseOcc : List (List Char) → List Char → Prop
  | one (w cs : List Char) :
      cs.map Char.toLower = w → SpecPhraseOcc [w] cs
  | cons (w w' : List Char) (ws : List (List Char)) (cs g rest : List Char) :
      cs.map Char.toLower = w → (∀ c ∈ g, isSpaceChar c = true) →
      SpecPhraseOcc (w' :: ws) rest → SpecPhraseOcc (w :: w' :: ws) (cs ++ (g ++ rest))

/-- The spec's contract: the text contains a whole-word occurrence of some
vocabulary phrase — nothing but a non-word character (or the text's edge)
may adjoin the occurrence on either side. -/
def specTerminal (s : String) : Prop :=
  ∃ ph pre mid suf, ph ∈ endVocab ∧ s.data = pre ++ (mid ++ suf) ∧ SpecPhraseOcc ph mid ∧
    (pre = [] ∨ ∃ pre' c, pre = pre' ++ [c] ∧ isWordChar c = false) ∧
    (suf = [] ∨ ∃ c suf', suf = c :: suf' ∧ isWordChar c = false)

/-! ## Equivalence of the regex embedding and the spec's characterization -/

def goodWord (w : List Char) : Bool := !w.isEmpty && w.all Char.isAlpha

def goodPhrase (ph : List (List Char)) : Bool := !ph.isEmpty && ph.all goodWord

lemma endVocab_good : endVocab.all goodPhrase = true := by decide

lemma space_toLower_not_alpha {c : Char} (h : isSpaceChar c = true) :
    (c.toLower).isAlpha = false := by
  simp only [isSpaceChar, Bool.or_eq_true, decide_eq_true_eq] at h
  rcases h with ((((rfl | rfl) | rfl) | rfl) | rfl) | rfl <;> decide

lemma not_space_of_lower_alpha {c d : Char} (h : c.toLower = d) (hd : d.isAlpha = true) :
    isSpaceChar c = false := by
  cases hc : isSpaceChar c with
  | false => rfl
  | true =>
      have := space_toLower_not_alpha hc
      rw [h, hd] at this
      exact absurd this (by simp)

lemma matchWord_eq_some (w : List Char) :
    ∀ r rest, matchWord w r = some rest ↔ ∃ cs, r = cs ++ rest ∧ cs.map Char.toLower = w := by
  induction w with
  | nil =>
      intro r rest
      constructor
      · intro h
        simp only [matchWord, Option.some.injEq] at h
        exact ⟨[], by simp [h], rfl⟩
      · rintro ⟨cs, hr, hm⟩
        have hcs : cs = [] := by cases cs with | nil => rfl | cons a l => simp at hm
        subst hcs
        simpa [matchWord] using hr
  | cons a w ih =>
      intro r rest
      cases r with
      | nil =>
          constructor
          · intro h; simp [matchWord] at h
          · rintro ⟨cs, hr, hm⟩
            cases cs with
            | nil => simp at hm
            | cons c0 cs' => simp at hr
      | cons c r' =>
          by_cases hc : c.toLower = a
          · rw [show matchWord (a :: w) (c :: r') = if c.toLower = a then matchWord w r' else none
              from rfl, if_pos hc]
            constructor
            · intro h
              obtain ⟨cs', hr', hm'⟩ := (ih r' rest).mp h
              exact ⟨c :: cs', by simp [hr'], by simp [hm', hc]⟩
            · rintro ⟨cs, hr, hm⟩
              cases cs with
              | nil => simp at hm
              | cons c0 cs' =>
                  simp only [List.map_cons, List.cons.injEq] at hm
                  simp only [List.cons_append, List.cons.injEq] at hr
                  exact (ih r' rest).mpr ⟨cs', hr.2, hm.2⟩
          · rw [show matchWord (a :: w) (c :: r') = if c.toLower = a then matchWord w r' else none
              from rfl, if_neg hc]
            constructor
            · intro h; exact absurd h (by simp)
            · rintro ⟨cs, hr, hm⟩
              cases cs with
              | nil => simp at hm
              | cons c0 cs' =>
                  simp only [List.map_cons, List.cons.injEq] at hm
                  simp only [List.cons_append, List.cons.injEq] at hr
                  rw [hr.1] at hc
                  exact absurd hm.1 hc

lemma head_of_lowersTo {cs w : List Char} (hm : cs.map Char.toLower = w)
    (hw : goodWord w = true) : ∃ c cs', cs = c :: cs' ∧ isSpaceChar c = false := by
  cases cs with
  | nil =>
      cases w with
      | nil => simp [goodWord] at hw
      | cons a l => simp at hm
  | cons c cs' =>
      refine ⟨c, cs', rfl, ?_⟩
      cases w with
      | nil => simp at hm
      | cons a l =>
          simp only [List.map_cons, List.cons.injEq] at hm
          simp only [goodWord, List.isEmpty_cons, Bool.not_false, List.all_cons,
            Bool.true_and, Bool.and_eq_true] at hw
          exact not_space_of_lower_alpha hm.1 hw.1

lemma specPhraseOcc_head {ph : List (List Char)} {mid : List Char}
    (h : SpecPhraseOcc ph mid) (hg : goodPhrase ph = true) :
    ∃ c mid', mid = c :: mid' ∧ isSpaceChar c = false := by
  cases h with
  | one w cs hm =>
      have hw : goodWord w = true := by
        simp only [goodPhrase, Bool.and_eq_true, List.all_eq_true] at hg
        exact hg.2 w (by simp)
      exact head_of_lowersTo hm hw
  | cons w w' ws cs g rest hm hsp hocc =>
      have hw : goodWord w = true := by
        simp only [goodPhrase, Bool.and_eq_true, List.all_eq_true] at hg
        exact hg.2 w (by simp)
      obtain ⟨c, cs', rfl, hc⟩ := head_of_lowersTo hm hw
      exact ⟨c, cs' ++ (g ++ rest), rfl, hc⟩

lemma dropWhile_append_of_all {p : Char → Bool} {g y : List Char}
    (hg : ∀ c ∈ g, p c = true) : (g ++ y).dropWhile p = y.dropWhile p := by
  induction g with
  | nil => rfl
  | cons c g' ih =>
      have hc := hg c (by simp)
      rw [List.cons_append, List.dropWhile_cons_of_pos hc]
      exact ih fun c hc' => hg c (by simp [hc'])

lemma goodPhrase_tail {w : List Char} {ws : List (List Char)}
    (h : goodPhrase (w :: ws) = true) (hne : ws ≠ []) : goodPhrase ws = true := by
  simp only [goodPhrase, Bool.and_eq_true, List.all_eq_true] at h ⊢
  exact ⟨by cases ws with | nil => exact absurd rfl hne | cons a l => simp,
    fun x hx => h.2 x (by simp [hx])⟩

lemma matchPhrase_eq_some : ∀ (ph : List (List Char)), goodPhrase ph = true →
    ∀ r rest, matchPhrase ph r = some rest ↔ ∃ mid, r = mid ++ rest ∧ SpecPhraseOcc ph mid
  | [], hg => by simp [goodPhrase] at hg
  | [w], _ => by
      intro r rest
      rw [show matchPhrase [w] r = matchWord w r from rfl]
      constructor
      · intro h
        obtain ⟨cs, hr, hm⟩ := (matchWord_eq_some w r rest).mp h
        exact ⟨cs, hr, SpecPhraseOcc.one w cs hm⟩
      · rintro ⟨mid, hr, hocc⟩
        cases hocc with
        | one _ cs hm => exact (matchWord_eq_some w r rest).mpr ⟨mid, hr, hm⟩
  | w :: w' :: ws, hg => by
      intro r rest
      have hgtail : goodPhrase (w' :: ws) = true := goodPhrase_tail hg (by simp)
      rw [show matchPhrase (w :: w' :: ws) r
        = (matchWord w r).bind (fun r1 => matchPhrase (w' :: ws) (r1.dropWhile isSpaceChar))
        from rfl]
      constructor
      · intro h
        obtain ⟨r1, hw1, h2⟩ := Option.bind_eq_some.mp h
        obtain ⟨cs, hr1, hm1⟩ := (matchWord_eq_some w r r1).mp hw1
        have hr1split : r1 = r1.takeWhile isSpaceChar ++ r1.dropWhile isSpaceChar :=
          (List.takeWhile_append_dropWhile ..).symm
        have hgspace : ∀ c ∈ r1.takeWhile isSpaceChar, isSpaceChar c = true :=
          fun c hc => List.mem_takeWhile_imp hc
        obtain ⟨mid2, hr2, hocc2⟩ :=
          (matchPhrase_eq_some (w' :: ws) hgtail (r1.dropWhile isSpaceChar) rest).mp h2
        have hr' : r = (cs ++ (r1.takeWhile isSpaceChar ++ mid2)) ++ rest := by
          rw [hr1]
          conv_lhs => rw [hr1split]
          rw [hr2]
          simp [List.append_assoc]
        exact ⟨cs ++ (r1.takeWhile isSpaceChar ++ mid2), hr',
          SpecPhraseOcc.cons w w' ws cs (r1.takeWhile isSpaceChar) mid2 hm1 hgspace hocc2⟩
      · rintro ⟨mid, hr, hocc⟩
        cases hocc with
        | cons _ _ _ cs g mid2 hm1 hgspace hocc2 =>
            have hmw : matchWord w r = some (g ++ (mid2 ++ rest)) := by
              apply (matchWord_eq_some w r _).mpr
              exact ⟨cs, by rw [hr]; simp [List.append_assoc], hm1⟩
            rw [hmw, Option.some_bind]
            have hdrop : (g ++ (mid2 ++ rest)).dropWhile isSpaceChar = mid2 ++ rest := by
              rw [dropWhile_append_of_all hgspace]
              obtain ⟨c0, mid2', heq, hc0⟩ := specPhraseOcc_head hocc2 hgtail
              rw [heq, List.cons_append, List.dropWhile_cons_of_neg (by simp [hc0])]
            rw [hdrop]
            exact (matchPhrase_eq_some (w' :: ws) hgtail (mid2 ++ rest) rest).mpr
              ⟨mid2, rfl, hocc2⟩

def lastOr (prev : Option Char) : List Char → Option Char
  | [] => prev
  | c :: cs => lastOr (some c) cs

lemma lastOr_concat : ∀ (l : List Char) (prev : Option Char) (c : Char),
    lastOr prev (l ++ [c]) = some c
  | [], _, _ => rfl
  | a :: l, _, c => lastOr_concat l (some a) c

lemma searchTerminal_iff : ∀ (l : List Char) (prev : Option Char),
    searchTerminal prev l = true ↔
      ∃ pre suf, l = pre ++ suf ∧ headBoundary (lastOr prev pre) = true ∧ phraseHere suf = true
  | [], prev => by
      constructor
      · intro h; simp [searchTerminal] at h
      · rintro ⟨pre, suf, hl, _, hp⟩
        have hsuf : suf = [] := (List.append_eq_nil.mp hl.symm).2
        subst hsuf
        have : phraseHere [] = false := by decide
        rw [this] at hp
        exact absurd hp (by simp)
  | c :: cs, prev => by
      rw [show searchTerminal prev (c :: cs)
        = ((headBoundary prev && phraseHere (c :: cs)) || searchTerminal (some c) cs) from rfl]
      constructor
      · intro h
        simp only [Bool.or_eq_true, Bool.and_eq_true] at h
        rcases h with ⟨hb, hp⟩ | h2
        · exact ⟨[], c :: cs, rfl, hb, hp⟩
        · obtain ⟨pre, suf, hl, hb, hp⟩ := (searchTerminal_iff cs (some c)).mp h2
          exact ⟨c :: pre, suf, by simp [hl], hb, hp⟩
      · rintro ⟨pre, suf, hl, hb, hp⟩
        cases pre with
        | nil =>
            simp only [List.nil_append] at hl
            subst hl
            simp only [Bool.or_eq_true, Bool.and_eq_true]
            exact Or.inl ⟨hb, hp⟩
        | cons c0 pre' =>
            simp only [List.cons_append, List.cons.injEq] at hl
            simp only [Bool.or_eq_true]
            right
            rw [hl.1]
            exact (searchTerminal_iff cs (some c0)).mpr ⟨pre', suf, hl.2, hb, hp⟩

lemma phraseHere_iff (l : List Char) :
    phraseHere l = true ↔
      ∃ ph, ph ∈ endVocab ∧ ∃ mid rest, l = mid ++ rest ∧ SpecPhraseOcc ph mid ∧
        tailBoundary rest = true := by
  constructor
  · intro h
    obtain ⟨ph, hmem, hmatch⟩ := List.any_eq_true.mp h
    have hgood : goodPhrase ph = true := List.all_eq_true.mp endVocab_good ph hmem
    cases hmp : matchPhrase ph l with
    | none => rw [hmp] at hmatch; exact absurd hmatch (by simp)
    | some rest =>
        rw [hmp] at hmatch
        obtain ⟨mid, hl, hocc⟩ := (matchPhrase_eq_some ph hgood l rest).mp hmp
        exact ⟨ph, hmem, mid, rest, hl, hocc, hmatch⟩
  · rintro ⟨ph, hmem, mid, rest, hl, hocc, htb⟩
    have hgood : goodPhrase ph = true := List.all_eq_true.mp endVocab_good ph hmem
    apply List.any_eq_true.mpr
    refine ⟨ph, hmem, ?_⟩
    rw [(matchPhrase_eq_some ph hgood l rest).mpr ⟨mid, hl, hocc⟩]
    exact htb

lemma headBoundary_lastOr_iff (pre : List Char) :
    headBoundary (lastOr none pre) = true ↔
      (pre = [] ∨ ∃ pre' c, pre = pre' ++ [c] ∧ isWordChar c = false) := by
  rcases List.eq_nil_or_concat' pre with rfl | ⟨pre', c, rfl⟩
  · simp [lastOr, headBoundary]
  · rw [lastOr_concat]
    constructor
    · intro h
      right
      exact ⟨pre', c, rfl, by simpa [headBoundary] using h⟩
    · rintro (h | ⟨pre'', c', heq, hc'⟩)
      · exact absurd h (by simp)
      · have : c = c' := by
          have := congrArg List.getLast? heq
          simpa using this
        simp [headBoundary, this, hc']

lemma tailBoundary_iff (suf : List Char) :
    tailBoundary suf = true ↔
      (suf = [] ∨ ∃ c suf', suf = c :: suf' ∧ isWordChar c = false) := by
  cases suf with
  | nil => simp [tailBoundary]
  | cons c suf' =>
      simp only [tailBoundary, Bool.not_eq_true']
      constructor
      · intro h; exact Or.inr ⟨c, suf', rfl, h⟩
      · rintro (h | ⟨c0, suf0, heq, hc0⟩)
        · exact absurd h (by simp)
        · injection heq with h1 h2
          rw [h1]
          exact hc0

lemma is_terminal_iff_specTerminal (s : String) : is_terminal s = true ↔ specTerminal s := by
  rw [show is_terminal s = searchTerminal none s.data from rfl]
  rw [searchTerminal_iff]
  constructor
  · rintro ⟨pre, suf0, hdata, hb, hp⟩
    obtain ⟨ph, hmem, mid, rest, hsuf0, hocc, htb⟩ := (phraseHere_iff suf0).mp hp
    refine ⟨ph, pre, mid, rest, hmem, ?_, hocc, ?_, ?_⟩
    · rw [hdata, hsuf0]
    · exact (headBoundary_lastOr_iff pre).mp hb
    · exact (tailBoundary_iff rest).mp htb
  · rintro ⟨ph, pre, mid, suf, hmem, hdata, hocc, hpre, hsuf⟩
    refine ⟨pre, mid ++ suf, hdata, ?_, ?_⟩
    · exact (headBoundary_lastOr_iff pre).mpr hpre
    · exact (phraseHere_iff (mid ++ suf)).mpr
        ⟨ph, hmem, mid, suf, rfl, hocc, (tailBoundary_iff suf).mpr hsuf⟩

/-! ## Frames and JSON messages

A parsed JSON text frame is modelled as its string-valued fields
(an association list; dict.get is lookup, dict[k] is lookup-or-KeyError).
Outbound frames mirror the JSON objects the endpoint serializes. -/

def JsonMsg : Type := List (String × String)

instance : DecidableEq JsonMsg := by unfold JsonMsg; infer_instance

def jget (j : JsonMsg) (k : String) : Option String := j.lookup k

/-- Outbound frames sent to the client over the WebSocket. -/
inductive OutFrame
  | errorFrame (message : String)
  | configAck (status message topic title : String)
  | eventFrame (e : Event)
  | conversationEnd (reason message : String)
deriving DecidableEq

/-- Items forwarded to the LiveRequestQueue by the upstream pump. -/
inductive QItem
  | sendRealtime (mimeType : String) (data : List Nat)
  | sendContent (text : String)
deriving DecidableEq

/-- Observable actions of the streaming phase, in the order they happen. -/
inductive TraceEv
  | sentFrame (f : OutFrame)
  | enq (q : QItem)
  | endedSet
  | queueClose
deriving DecidableEq

/-! ## The downstream pump (downstream_task, lines 299-341)

For each event of run_live: serialize and send it; if some textual part
matches the end pattern, additionally send the conversation_end frame, set
the conversation_ended flag, close the queue, and break.  Breaking the
async-for closes the generator, so the events the agent produces are
exactly the consumed prefix of the stream. -/

/-- The synthetic end-signal frame built in downstream_task. -/
def conversationEndFrame : OutFrame :=
  .conversationEnd "lesson_complete" "The lesson is complete. Great job!"

/-- The ENDING sequence: terminal event frame, end signal, flag set, queue
close, in source order. -/
def endingSeq (e : Event) : List TraceEv :=
  [.sentFrame (.eventFrame e), .sentFrame conversationEndFrame, .endedSet, .queueClose]

/-- The ordered trace of observable actions downstream_task performs on a
given stream of events. -/
def downstreamTrace : List Event → List TraceEv
  | [] => []
  | e :: es =>
      if eventTerminal e then endingSeq e
      else .sentFrame (.eventFrame e) :: downstreamTrace es

/-- The prefix of the potential event stream that the pump actually consumes
before breaking (everything up to and including the first terminal event). -/
def consumedEvents : List Event → List Event
  | [] => []
  | e :: es => if eventTerminal e then [e] else e :: consumedEvents es

/-! ## The configuration handshake (websocket_endpoint, lines 111-156)

The loop reads frames until a config frame arrives.  A text frame whose
parsed type is not "config" gets the error response and the wait continues;
a frame without a "text" key is passed over silently; unparseable JSON
raises, is caught by the outer handler, and aborts the session; so does a
disconnect. -/

inductive NegoIn
  | textMsg (j : JsonMsg)
  | badText
  | binMsg (b : List Nat)
  | disconnect
deriving DecidableEq

inductive NegoOutcome
  | configured (topic title : String)
  | disconnected
  | aborted
  | stillWaiting
deriving DecidableEq

structure NegoResult where
  responses : List OutFrame
  outcome : NegoOutcome
deriving DecidableEq

/-- The error frame of line 145-148. -/
def configFirstError : OutFrame :=
  .errorFrame "Please send configuration first (type: \x27config\x27)"

/-- The config_ack frame of lines 133-139. -/
def configAckFrame (topic title : String) : OutFrame :=
  .configAck "ready" ("Ready to start conversation about " ++ topic ++ ": " ++ title)
    topic title

/-- The handshake loop over the arriving frames. -/
def negotiate : List NegoIn → NegoResult
  | [] => ⟨[], .stillWaiting⟩
  | .disconnect :: _ => ⟨[], .disconnected⟩
  | .badText :: _ => ⟨[], .aborted⟩
  | .binMsg _ :: rest => negotiate rest
  | .textMsg j :: rest =>
      if jget j "type" = some "config" then
        let topic := (jget j "topic").getD "General"
        let title := (jget j "title").getD "Introduction"
        ⟨[configAckFrame topic title], .configured topic title⟩
      else
        let r := negotiate rest
        ⟨configFirstError :: r.responses, r.outcome⟩

/-! ## The upstream pump's message handling (upstream_task, lines 241-282)

The try/except around the receive call only guards the wait itself; the
body below it — json.loads, the json_message["text"] and
json_message["data"] accesses, and base64.b64decode — runs outside it, so
any exception there propagates out of the task.  base64.b64decode is the
Python stdlib collaborator, passed in as a parameter. -/

inductive PyErr
  | keyError
  | jsonDecodeError
  | binasciiError
deriving DecidableEq

inductive RawMsg
  | bytes (b : List Nat)
  | text (j : JsonMsg)
  | badText
deriving DecidableEq

/-- Processing of one received message in the upstream loop body, yielding
the queue submissions or the exception that escapes the task. -/
def handleMessage (b64 : String → Except PyErr (List Nat)) : RawMsg → Except PyErr (List QItem)
  | .bytes b => .ok [.sendRealtime "audio/pcm;rate=16000" b]
  | .badText => .error .jsonDecodeError
  | .text j =>
      if jget j "type" = some "text" then
        match jget j "text" with
        | some t => .ok [.sendContent t]
        | none => .error .keyError
      else if jget j "type" = some "image" then
        match jget j "data" with
        | none => .error .keyError
        | some d =>
            match b64 d with
            | .error e => .error e
            | .ok bytes => .ok [.sendRealtime ((jget j "mimeType").getD "image/jpeg") bytes]
      else .ok []

/-- Outcomes the receive wait can present to one loop iteration. -/
inductive URecv
  | timeout
  | msg (m : RawMsg)
  | disconnect
  | exn
deriving DecidableEq

/-- How the upstream loop finished. -/
inductive UpExit
  | endedFlag
  | broke
  | raised (e : PyErr)
  | pending
deriving DecidableEq

structure UpRun where
  queued : List QItem
  exit : UpExit
deriving DecidableEq

/-- The upstream loop: each iteration reads the conversation_ended flag at
the loop head (the environment supplies its current value) and, when it is
clear, waits for the next receive outcome.  Timeouts continue the loop;
WebSocketDisconnect and other receive errors break it; a message is handled
by the loop body, whose exception ends the whole task. -/
def upstreamRun (b64 : String → Except PyErr (List Nat)) :
    List (Bool × URecv) → UpRun
  | [] => ⟨[], .pending⟩
  | (true, _) :: _ => ⟨[], .endedFlag⟩
  | (false, .timeout) :: rest => upstreamRun b64 rest
  | (false, .disconnect) :: _ => ⟨[], .broke⟩
  | (false, .exn) :: _ => ⟨[], .broke⟩
  | (false, .msg m) :: rest =>
      match handleMessage b64 m with
      | .error e => ⟨[], .raised e⟩
      | .ok items =>
          let r := upstreamRun b64 rest
          ⟨items ++ r.queued, r.exit⟩

/-! ## The Request Queue (LiveRequestQueue collaborator)

Modelled from the spec: the concrete queue is the external ADK
LiveRequestQueue, not part of this repository; §3 and §4.5 give its
contract — close() is idempotent (closing an already-closed queue is a
no-op, never an error), and sends after close are dropped. -/

structure ReqQueue where
  closed : Bool
  items : List QItem
deriving DecidableEq

/-- Modelled from the spec: close() marks the queue closed; on an
already-closed queue it changes nothing and raises nothing. -/
def rqClose (q : ReqQueue) : ReqQueue := { q with closed := true }

/-- Modelled from the spec: sends after close are dropped silently. -/
def rqSend (q : ReqQueue) (x : QItem) : ReqQueue :=
  if q.closed then q else { q with items := q.items ++ [x] }

/-- n successive close() calls. -/
def rqCloseN : Nat → ReqQueue → ReqQueue
  | 0, q => q
  | n + 1, q => rqClose (rqCloseN n q)

/-! ## Small-step model of the concurrent streaming phase (lines 220-362)

The two pumps are interleaved cooperatively.  The endpoint awaits
asyncio.gather(upstream_task(), downstream_task()) inside try/except, then
runs the finally block that closes the queue unconditionally.  Plain gather
without return_exceptions resolves when both tasks complete, or as soon as
one raises; in the latter case the other task is not cancelled and keeps
running on the event loop.  The 0.5-second receive timeout of
asyncio.wait_for is represented by the always-enabled poll-timeout step. -/

/-- The timeout passed to asyncio.wait_for around websocket.receive(). -/
def pollTimeoutSeconds : ℚ := 1 / 2

inductive UpPC
  | check
  | waiting
  | done
  | crashed
deriving DecidableEq

inductive DownPC
  | reading
  | done
  | crashed
deriving DecidableEq

/-- What the agent's event stream presents next to the downstream pump. -/
inductive DIn
  | event (e : Event)
  | streamEnd
  | raise
deriving DecidableEq

inductive Phase
  | gathering
  | terminated
deriving DecidableEq

structure SysState where
  up : UpPC
  down : DownPC
  uins : List URecv
  dins : List DIn
  ended : Bool
  closes : Nat
  out : List TraceEv
  phase : Phase
deriving DecidableEq

/-- The initial state of the streaming phase: both pumps at their loop
heads, flag clear, queue open, nothing sent. -/
def mkInit (uins : List URecv) (dins : List DIn) : SysState :=
  ⟨.check, .reading, uins, dins, false, 0, [], .gathering⟩

/-- gather resolves when both tasks returned, or immediately when either
raised (the exception propagates to the awaiting endpoint). -/
def gatherResolved (c : SysState) : Prop :=
  (c.up = .done ∧ c.down = .done) ∨ c.up = .crashed ∨ c.down = .crashed

inductive Lab
  | uCheckExit
  | uCheckEnter
  | uPollTimeout
  | uRecvTimeout
  | uRecvDisconnect
  | uRecvExn
  | uRecvMsg
  | uRecvMsgCrash
  | dEvent
  | dTerminal
  | dStreamEnd
  | dRaise
  | finallyClose
deriving DecidableEq

/-- Labels of steps taken by the upstream pump. -/
def isUpLab : Lab → Bool
  | .uCheckExit => true
  | .uCheckEnter => true
  | .uPollTimeout => true
  | .uRecvTimeout => true
  | .uRecvDisconnect => true
  | .uRecvExn => true
  | .uRecvMsg => true
  | .uRecvMsgCrash => true
  | _ => false

/-- One interleaved step of the streaming phase. -/
inductive Step (b64 : String → Except PyErr (List Nat)) : Lab → SysState → SysState → Prop
  | uCheckExit (c : SysState) (h : c.up = .check) (he : c.ended = true) :
      Step b64 .uCheckExit c { c with up := .done }
  | uCheckEnter (c : SysState) (h : c.up = .check) (he : c.ended = false) :
      Step b64 .uCheckEnter c { c with up := .waiting }
  | uPollTimeout (c : SysState) (h : c.up = .waiting) :
      Step b64 .uPollTimeout c { c with up := .check }
  | uRecvTimeout (c : SysState) (rest : List URecv) (h : c.up = .waiting)
      (hq : c.uins = .timeout :: rest) :
      Step b64 .uRecvTimeout c { c with up := .check, uins := rest }
  | uRecvDisconnect (c : SysState) (rest : List URecv) (h : c.up = .waiting)
      (hq : c.uins = .disconnect :: rest) :
      Step b64 .uRecvDisconnect c { c with up := .done, uins := rest }
  | uRecvExn (c : SysState) (rest : List URecv) (h : c.up = .waiting)
      (hq : c.uins = .exn :: rest) :
      Step b64 .uRecvExn c { c with up := .done, uins := rest }
  | uRecvMsg (c : SysState) (m : RawMsg) (rest : List URecv) (items : List QItem)
      (h : c.up = .waiting) (hq : c.uins = .msg m :: rest)
      (hh : handleMessage b64 m = .ok items) :
      Step b64 .uRecvMsg c
        { c with up := .check, uins := rest, out := c.out ++ items.map .enq }
  | uRecvMsgCrash (c : SysState) (m : RawMsg) (rest : List URecv) (e : PyErr)
      (h : c.up = .waiting) (hq : c.uins = .msg m :: rest)
      (hh : handleMessage b64 m = .error e) :
      Step b64 .uRecvMsgCrash c { c with up := .crashed, uins := rest }
  | dEvent (c : SysState) (e : Event) (rest : List DIn) (h : c.down = .reading)
      (hq : c.dins = .event e :: rest) (ht : eventTerminal e = false) :
      Step b64 .dEvent c
        { c with dins := rest, out := c.out ++ [.sentFrame (.eventFrame e)] }
  | dTerminal (c : SysState) (e : Event) (rest : List DIn) (h : c.down = .reading)
      (hq : c.dins = .event e :: rest) (ht : eventTerminal e = true) :
      Step b64 .dTerminal c
        { c with
          down := .done, dins := rest, ended := true, closes := c.closes + 1,
          out := c.out ++ endingSeq e }
  | dStreamEnd (c : SysState) (rest : List DIn) (h : c.down = .reading)
      (hq : c.dins = .streamEnd :: rest) :
      Step b64 .dStreamEnd c { c with down := .done, dins := rest }
  | dRaise (c : SysState) (rest : List DIn) (h : c.down = .reading)
      (hq : c.dins = .raise :: rest) :
      Step b64 .dRaise c { c with down := .crashed, dins := rest }
  | finallyClose (c : SysState) (h : c.phase = .gathering) (hg : gatherResolved c) :
      Step b64 .finallyClose c
        { c with phase := .terminated, closes := c.closes + 1, out := c.out ++ [.queueClose] }

/-- Some step with some label. -/
def SysStep (b64 : String → Except PyErr (List Nat)) (c c' : SysState) : Prop :=
  ∃ l, Step b64 l c c'

/-- Reachability along interleaved steps. -/
def Reach (b64 : String → Except PyErr (List Nat)) : SysState → SysState → Prop :=
  Relation.ReflTransGen (SysStep b64)

/-- Steps remaining for the upstream pump to exit once the flag is set. -/
def uRank : UpPC → Nat
  | .check => 1
  | .waiting => 2
  | .done => 0
  | .crashed => 0

/-! ## Sample collaborator instances used to instantiate theorems -/

/-- A concrete instance of the b64decode parameter: decoding succeeds. -/
def b64decodeOk : String → Except PyErr (List Nat) := fun _ => .ok []

/-- A concrete instance of the b64decode parameter: the input is not valid
base64, so decoding raises binascii.Error. -/
def b64decodeFail : String → Except PyErr (List Nat) := fun _ => .error .binasciiError

/-! ## Claim theorems -/

/-- C3: is_terminal(text) returns true exactly when text contains a
whole-word, case-insensitive occurrence of one of the vocabulary phrases,
tolerating embedded whitespace variation inside a phrase and never matching
inside a larger token; "Goodbye, see you!" is terminal, "goodbyeville" is
not, "the LESSON   COMPLETE now" is terminal.  The detector is a pure
function of its input text by construction (it is a Lean function of the
string alone). -/
theorem terminal_detector_matches_spec :
    (∀ s, is_terminal s = true ↔ specTerminal s) ∧
    is_terminal "Goodbye, see you!" = true ∧
    is_terminal "goodbyeville" = false ∧
    is_terminal "the LESSON   COMPLETE now" = true :=
  ⟨is_terminal_iff_specTerminal, by decide, by decide, by decide⟩

/-- C1: every terminal event the downstream pump consumes from the agent
stream (the async-for breaks at the first terminal event, closing the
generator, so the consumed prefix is exactly what the agent produces) is
sent to the client strictly before the synthetic conversation_end frame;
both frames precede the queue close; and no event frame follows the
conversation_end frame — the trace ends with the fixed ENDING suffix and
everything before it is non-terminal event frames. -/
theorem downstream_termination_order (es : List Event) (e : Event)
    (h1 : e ∈ consumedEvents es) (h2 : eventTerminal e = true) :
    ∃ pre, downstreamTrace es =
        pre ++ [TraceEv.sentFrame (.eventFrame e), TraceEv.sentFrame conversationEndFrame,
          TraceEv.endedSet, TraceEv.queueClose] ∧
      ∀ x ∈ pre, ∃ ev, x = TraceEv.sentFrame (.eventFrame ev) ∧ eventTerminal ev = false := by
  induction es with
  | nil => simp [consumedEvents] at h1
  | cons e0 es' ih =>
      by_cases ht : eventTerminal e0
      · have hc : consumedEvents (e0 :: es') = [e0] := by simp [consumedEvents, ht]
        rw [hc] at h1
        have he : e = e0 := by simpa using h1
        subst he
        refine ⟨[], ?_, by simp⟩
        simp [downstreamTrace, ht, endingSeq]
      · have hb : eventTerminal e0 = false := by simpa using ht
        have hc : consumedEvents (e0 :: es') = e0 :: consumedEvents es' := by
          simp [consumedEvents, hb]
        rw [hc] at h1
        rcases List.mem_cons.mp h1 with rfl | hmem
        · rw [hb] at h2; exact Bool.noConfusion h2
        · obtain ⟨pre, htr, hpre⟩ := ih hmem
          refine ⟨TraceEv.sentFrame (.eventFrame e0) :: pre, ?_, ?_⟩
          · simp [downstreamTrace, hb, htr]
          · intro x hx
            rcases List.mem_cons.mp hx with rfl | hx'
            · exact ⟨e0, rfl, hb⟩
            · exact hpre x hx'

/-- A non-terminal sample event. -/
def evHello : Event := ⟨some ⟨[⟨some "Hello there"⟩]⟩⟩

/-- A terminal sample event (Scenario B of the spec). -/
def evBye : Event := ⟨some ⟨[⟨some "Great session! GOOD BYE"⟩]⟩⟩

/-- Witness for C1 at the concrete stream [evHello, evBye]. -/
theorem downstream_termination_order_witness :
    ∃ pre, downstreamTrace [evHello, evBye] =
        pre ++ [TraceEv.sentFrame (.eventFrame evBye), TraceEv.sentFrame conversationEndFrame,
          TraceEv.endedSet, TraceEv.queueClose] ∧
      ∀ x ∈ pre, ∃ ev, x = TraceEv.sentFrame (.eventFrame ev) ∧ eventTerminal ev = false :=
  downstream_termination_order [evHello, evBye] evBye (by decide) (by decide)

/-- C8: a config frame resolves topic (default "General") and title
(default "Introduction"), moves the handshake to ACTIVE (.configured, which
returns the pair to the caller), and sends exactly one acknowledgment frame
carrying type config_ack, status "ready", a message string, and the
resolved topic and title. -/
theorem config_frame_ack_and_defaults (j : JsonMsg) (h : jget j "type" = some "config") :
    negotiate [.textMsg j] =
      ⟨[OutFrame.configAck "ready"
          ("Ready to start conversation about " ++ (jget j "topic").getD "General" ++ ": " ++
            (jget j "title").getD "Introduction")
          ((jget j "topic").getD "General") ((jget j "title").getD "Introduction")],
        .configured ((jget j "topic").getD "General") ((jget j "title").getD "Introduction")⟩ := by
  simp [negotiate, h, configAckFrame]

/-- Witness for C8: topic given, title absent and defaulted. -/
theorem config_frame_ack_and_defaults_witness :
    jget [("type", "config"), ("topic", "Python")] "type" = some "config" ∧
    negotiate [.textMsg [("type", "config"), ("topic", "Python")]] =
      ⟨[OutFrame.configAck "ready" "Ready to start conversation about Python: Introduction"
          "Python" "Introduction"],
        .configured "Python" "Introduction"⟩ :=
  ⟨by decide, config_frame_ack_and_defaults [("type", "config"), ("topic", "Python")] (by decide)⟩

/-- C9: during ACTIVE, a text frame whose parsed type is neither "text" nor
"image" (a second config frame included) is dropped by the loop body:
nothing is forwarded to the queue, no frame is sent back (the pump has no
client-send at all), and the run continues exactly as if the frame had
never arrived. -/
theorem unknown_type_frame_ignored (b64 : String → Except PyErr (List Nat)) (j : JsonMsg)
    (rest : List (Bool × URecv))
    (h1 : jget j "type" ≠ some "text") (h2 : jget j "type" ≠ some "image") :
    handleMessage b64 (.text j) = .ok [] ∧
    upstreamRun b64 ((false, .msg (.text j)) :: rest) = upstreamRun b64 rest := by
  have hm : handleMessage b64 (.text j) = .ok [] := by
    simp [handleMessage, h1, h2]
  refine ⟨hm, ?_⟩
  rw [show upstreamRun b64 ((false, .msg (.text j)) :: rest)
    = (match handleMessage b64 (.text j) with
       | .error e => ⟨[], .raised e⟩
       | .ok items => ⟨items ++ (upstreamRun b64 rest).queued, (upstreamRun b64 rest).exit⟩)
    from rfl, hm]
  rfl

/-- Witness for C9 at a post-handshake second config frame. -/
theorem unknown_type_frame_ignored_witness :
    handleMessage b64decodeOk (.text [("type", "config")]) = .ok [] ∧
    upstreamRun b64decodeOk [(false, .msg (.text [("type", "config")]))]
      = upstreamRun b64decodeOk [] :=
  unknown_type_frame_ignored b64decodeOk [("type", "config")] [] (by decide) (by decide)

/-- C10: during ACTIVE, a "text" frame without its "text" field, or an
"image" frame without its "data" field or whose data fails base64 decoding,
raises out of the loop body — which runs outside the try/except guarding
only the receive wait — so the exception terminates the whole pump run
instead of being ignored or answered with an error frame. -/
theorem malformed_frame_raises (b64 : String → Except PyErr (List Nat)) (j : JsonMsg)
    (rest : List (Bool × URecv)) :
    (jget j "type" = some "text" → jget j "text" = none →
      upstreamRun b64 ((false, .msg (.text j)) :: rest) = ⟨[], .raised .keyError⟩) ∧
    (jget j "type" = some "image" → jget j "data" = none →
      upstreamRun b64 ((false, .msg (.text j)) :: rest) = ⟨[], .raised .keyError⟩) ∧
    (∀ d e, jget j "type" = some "image" → jget j "data" = some d → b64 d = .error e →
      upstreamRun b64 ((false, .msg (.text j)) :: rest) = ⟨[], .raised e⟩) := by
  refine ⟨?_, ?_, ?_⟩
  · intro ht hf
    have hm : handleMessage b64 (.text j) = .error .keyError := by
      simp [handleMessage, ht, hf]
    rw [show upstreamRun b64 ((false, .msg (.text j)) :: rest)
      = (match handleMessage b64 (.text j) with
         | .error e => ⟨[], .raised e⟩
         | .ok items => ⟨items ++ (upstreamRun b64 rest).queued, (upstreamRun b64 rest).exit⟩)
      from rfl, hm]
  · intro ht hf
    have hne : jget j "type" ≠ some "text" := by rw [ht]; simp
    have hm : handleMessage b64 (.text j) = .error .keyError := by
      simp [handleMessage, ht, hf, hne]
    rw [show upstreamRun b64 ((false, .msg (.text j)) :: rest)
      = (match handleMessage b64 (.text j) with
         | .error e => ⟨[], .raised e⟩
         | .ok items => ⟨items ++ (upstreamRun b64 rest).queued, (upstreamRun b64 rest).exit⟩)
      from rfl, hm]
  · intro d e ht hd hb
    have hne : jget j "type" ≠ some "text" := by rw [ht]; simp
    have hm : handleMessage b64 (.text j) = .error e := by
      simp [handleMessage, ht, hd, hne, hb]
    rw [show upstreamRun b64 ((false, .msg (.text j)) :: rest)
      = (match handleMessage b64 (.text j) with
         | .error e => ⟨[], .raised e⟩
         | .ok items => ⟨items ++ (upstreamRun b64 rest).queued, (upstreamRun b64 rest).exit⟩)
      from rfl, hm]

/-- Witness for C10: a text frame lacking "text" and an image frame whose
data fails decoding both end the pump run with the raised error. -/
theorem malformed_frame_raises_witness :
    upstreamRun b64decodeOk [(false, .msg (.text [("type", "text")]))]
      = ⟨[], .raised .keyError⟩ ∧
    upstreamRun b64decodeFail [(false, .msg (.text [("type", "image"), ("data", "no")]))]
      = ⟨[], .raised .binasciiError⟩ :=
  ⟨(malformed_frame_raises b64decodeOk [("type", "text")] []).1 (by decide) (by decide),
   (malformed_frame_raises b64decodeFail [("type", "image"), ("data", "no")] []).2.2
     "no" .binasciiError (by decide) (by decide) rfl⟩

/-- C5: close on the Request Queue is idempotent — any number of closes
beyond the first changes nothing and raises nothing (the model's close is a
total function), so the terminal path's double close (once in the ENDING
sequence, once in the finally block) leaves the queue in the same cleanly
closed state as a single close. -/
theorem queue_close_idempotent (q : ReqQueue) (n : Nat) (h : 1 ≤ n) :
    rqCloseN n q = rqClose q ∧ rqClose (rqClose q) = rqClose q ∧
      (rqClose q).closed = true ∧ (rqClose q).items = q.items := by
  refine ⟨?_, rfl, rfl, rfl⟩
  induction n with
  | zero => exact absurd h (by omega)
  | succ m ih =>
      cases m with
      | zero => rfl
      | succ k =>
          rw [show rqCloseN (k + 1 + 1) q = rqClose (rqCloseN (k + 1) q) from rfl,
            ih (by omega)]
          rfl

/-- Witness for C5: the terminal path's two closes (and a third) on a fresh
queue equal a single close. -/
theorem queue_close_idempotent_witness :
    rqCloseN 3 ⟨false, []⟩ = rqClose ⟨false, []⟩ ∧
      rqClose (rqClose ⟨false, []⟩) = rqClose ⟨false, []⟩ ∧
      (rqClose ⟨false, []⟩).closed = true ∧
      (rqClose (⟨false, []⟩ : ReqQueue)).items = (⟨false, []⟩ : ReqQueue).items :=
  queue_close_idempotent ⟨false, []⟩ 3 (by decide)

/-- C2 counterexample: the claim predicts that a lone binary frame during
the handshake yields exactly one error response, and that a lone non-config
text frame yields exactly one error frame whose message reads "Please send
configuration first".  In the code a binary frame yields no response at all
(the loop body only handles frames with a "text" key), and the error frame
actually sent carries the longer message of line 147. -/
theorem handshake_gating_counterexample :
    (negotiate [.binMsg []]).responses.length ≠ 1 ∧
    (negotiate [.textMsg [("type", "image")]]).responses.count
      (OutFrame.errorFrame "Please send configuration first") ≠ 1 ∧
    (negotiate [.textMsg [("type", "image")]]).responses =
      [OutFrame.errorFrame "Please send configuration first (type: \x27config\x27)"] :=
  ⟨by decide, by decide, by decide⟩

/-- Keeps, per pre-config frame, the error response the loop sends for it:
one error frame for a text frame, none for a binary frame. -/
def preConfigResponse : NegoIn → Option OutFrame
  | .textMsg _ => some configFirstError
  | _ => none

/-- Frames the handshake loop passes over without configuring: text frames
whose type is not "config", and binary frames. -/
def nonConfigIn : NegoIn → Bool
  | .textMsg j => !(jget j "type" == some "config")
  | .binMsg _ => true
  | .badText => false
  | .disconnect => false

/-- C2 amended: during the handshake, each non-config text-typed JSON frame
yields exactly one error frame, whose message is "Please send configuration
first (type: 'config')"; binary frames are passed over silently with no
response; the session never enters ACTIVE while only such frames have
arrived; and a config frame then transitions to ACTIVE exactly once,
emitting exactly one config_ack. -/
theorem handshake_gating_amended (pre : List NegoIn) (cfg : JsonMsg)
    (hpre : ∀ x ∈ pre, nonConfigIn x = true)
    (hcfg : jget cfg "type" = some "config") :
    (negotiate pre).outcome = .stillWaiting ∧
    (negotiate (pre ++ [.textMsg cfg])).outcome =
      .configured ((jget cfg "topic").getD "General") ((jget cfg "title").getD "Introduction") ∧
    (negotiate (pre ++ [.textMsg cfg])).responses =
      pre.filterMap preConfigResponse ++
        [configAckFrame ((jget cfg "topic").getD "General")
          ((jget cfg "title").getD "Introduction")] := by
  induction pre with
  | nil =>
      refine ⟨rfl, ?_, ?_⟩ <;> simp [negotiate, hcfg]
  | cons x pre' ih =>
      have hx := hpre x (by simp)
      have hrest : ∀ y ∈ pre', nonConfigIn y = true := fun y hy => hpre y (by simp [hy])
      obtain ⟨ih1, ih2, ih3⟩ := ih hrest
      cases x with
      | binMsg b =>
          refine ⟨ih1, ih2, ?_⟩
          rw [show negotiate ((NegoIn.binMsg b :: pre') ++ [.textMsg cfg])
            = negotiate (pre' ++ [.textMsg cfg]) from rfl, ih3]
          simp [preConfigResponse]
      | textMsg j =>
          have hj : ¬ jget j "type" = some "config" := by
            simpa [nonConfigIn] using hx
          refine ⟨?_, ?_, ?_⟩
          · simp [negotiate, hj, ih1]
          · simp [negotiate, hj, ih2]
          · simp [negotiate, hj, ih3, preConfigResponse]
      | badText => simp [nonConfigIn] at hx
      | disconnect => simp [nonConfigIn] at hx

/-- Witness for the amended C2: Scenario A plus a leading binary frame. -/
theorem handshake_gating_amended_witness :
    (negotiate [.binMsg [], .textMsg [("type", "image")]]).outcome = .stillWaiting ∧
    (negotiate [.binMsg [], .textMsg [("type", "image")],
        .textMsg [("type", "config"), ("topic", "Python"), ("title", "Loops")]]).outcome =
      .configured "Python" "Loops" ∧
    (negotiate [.binMsg [], .textMsg [("type", "image")],
        .textMsg [("type", "config"), ("topic", "Python"), ("title", "Loops")]]).responses =
      [.binMsg ([] : List Nat), NegoIn.textMsg [("type", "image")]].filterMap preConfigResponse ++
        [configAckFrame "Python" "Loops"] :=
  handshake_gating_amended [.binMsg [], .textMsg [("type", "image")]]
    [("type", "config"), ("topic", "Python"), ("title", "Loops")] (by decide) (by decide)

/-- Initial state of the C4 counterexample run: the agent stream raises
immediately; the upstream pump has not yet taken a step. -/
def cexInit : SysState := mkInit [] [.raise]

/-- After the downstream pump crashes. -/
def cexMid : SysState := ⟨.check, .crashed, [], [], false, 0, [], .gathering⟩

/-- After gather propagates the exception and the finally block closes the
queue: the session is terminated while the upstream pump is still at its
loop head, un-cancelled. -/
def cexFinal : SysState := ⟨.check, .crashed, [], [], false, 1, [.queueClose], .terminated⟩

/-- C4 counterexample: it is not true that, when the session terminates,
both pumps have stopped running.  asyncio.gather without return_exceptions
propagates the downstream exception without cancelling the upstream task:
in the reachable terminated state cexFinal the upstream pump is still at
its loop head (and can still step). -/
theorem gather_no_cancellation_counterexample :
    ¬ (∀ c : SysState, Reach b64decodeOk cexInit c → c.phase = .terminated →
        c.up = UpPC.done ∨ c.up = UpPC.crashed) := by
  intro hclaim
  have hreach : Reach b64decodeOk cexInit cexFinal :=
    Relation.ReflTransGen.head ⟨.dRaise, Step.dRaise cexInit [] rfl rfl⟩
      (Relation.ReflTransGen.single
        ⟨.finallyClose, Step.finallyClose cexMid rfl (Or.inr (Or.inr rfl))⟩)
  rcases hclaim cexFinal hreach rfl with h | h <;> exact UpPC.noConfusion h

/-- States that have already closed the queue whenever the session has
terminated. -/
def closedAtEnd (c : SysState) : Prop :=
  c.phase = .terminated → 1 ≤ c.closes ∧ TraceEv.queueClose ∈ c.out

lemma step_preserves_closedAtEnd {b64 : String → Except PyErr (List Nat)} {l : Lab}
    {a b : SysState} (h : Step b64 l a b) (ha : closedAtEnd a) : closedAtEnd b := by
  cases h <;> intro hb <;>
    first
      | exact ⟨Nat.succ_le_succ (Nat.zero_le _), List.mem_append_right _ (by simp)⟩
      | (obtain ⟨h1, h2⟩ := ha hb
         exact ⟨by first | exact h1 | exact h1.trans (Nat.le_succ _),
           by first | exact h2 | exact List.mem_append_left _ h2⟩)

/-- C4 amended: on every exit path of the streaming phase — normal
completion of both pumps, disconnection, or an exception from either pump —
the Request Queue is closed by the time the session terminates (the finally
block closes unconditionally); but a raising or exiting pump does not cause
the other to be cancelled: it is left running until it exits on its own, as
the counterexample state shows. -/
theorem queue_closed_on_every_exit (b64 : String → Except PyErr (List Nat))
    (uins : List URecv) (dins : List DIn) (c : SysState)
    (h : Reach b64 (mkInit uins dins) c) (hterm : c.phase = .terminated) :
    1 ≤ c.closes ∧ TraceEv.queueClose ∈ c.out := by
  have hinv : closedAtEnd c := by
    clear hterm
    induction h with
    | refl => intro h0; exact absurd h0 (by simp [mkInit])
    | tail hr hs ih =>
        obtain ⟨l, hstep⟩ := hs
        exact step_preserves_closedAtEnd hstep ih
  exact hinv hterm

/-- The terminal state of a fully drained happy-path run. -/
def happyFinal : SysState := ⟨.done, .done, [], [], false, 1, [.queueClose], .terminated⟩

/-- Witness for the amended C4: a complete disconnect-and-stream-end run
reaches termination with the queue closed. -/
theorem queue_closed_on_every_exit_witness :
    1 ≤ happyFinal.closes ∧ TraceEv.queueClose ∈ happyFinal.out :=
  queue_closed_on_every_exit b64decodeOk [.disconnect] [.streamEnd] happyFinal
    (Relation.ReflTransGen.head ⟨.uCheckEnter, Step.uCheckEnter _ rfl rfl⟩
      (Relation.ReflTransGen.head ⟨.dStreamEnd, Step.dStreamEnd _ _ rfl rfl⟩
        (Relation.ReflTransGen.head ⟨.uRecvDisconnect, Step.uRecvDisconnect _ _ rfl rfl⟩
          (Relation.ReflTransGen.single
            ⟨.finallyClose, Step.finallyClose _ rfl (Or.inl ⟨rfl, rfl⟩)⟩))))
    rfl

/-- C6: the conversation_ended flag starts false, is monotone (once true it
stays true under every step), its only writer is the downstream ENDING step
(any step that changes it is dTerminal), and a read of a set flag cannot
observe false (the upstream loop-head step that proceeds into the loop is
impossible once the flag is true). -/
theorem ended_flag_monotone_single_writer (b64 : String → Except PyErr (List Nat)) :
    (∀ uins dins, (mkInit uins dins).ended = false) ∧
    (∀ l a b, Step b64 l a b → a.ended = true → b.ended = true) ∧
    (∀ l a b, Step b64 l a b → a.ended ≠ b.ended → l = Lab.dTerminal) ∧
    (∀ a b, a.ended = true → ¬ Step b64 .uCheckEnter a b) := by
  refine ⟨fun _ _ => rfl, ?_, ?_, ?_⟩
  · intro l a b h ha
    cases h <;> first | exact ha | rfl
  · intro l a b h hne
    cases h <;> first | rfl | exact absurd rfl hne
  · intro a b ha hstep
    cases hstep with
    | uCheckEnter c h he => rw [ha] at he; exact Bool.noConfusion he

/-- A state with the flag already set, used to instantiate C6. -/
def c6pre : SysState := ⟨.waiting, .done, [], [], true, 1, [], .gathering⟩

/-- Witness for C6: the flag survives a concrete upstream poll-timeout step. -/
theorem ended_flag_monotone_single_writer_witness :
    ({ c6pre with up := UpPC.check } : SysState).ended = true :=
  (ended_flag_monotone_single_writer b64decodeOk).2.1 .uPollTimeout c6pre
    { c6pre with up := UpPC.check } (Step.uPollTimeout c6pre rfl) rfl

/-- C7: the upstream pump's receive wait is bounded by the 0.5-second
wait_for timeout (at most 1 second); the poll-timeout step is enabled
whenever the pump is waiting (so no receive blocks unboundedly) and lands
back at the loop-head flag check; once the flag is set, the exit step is
enabled at the loop head, and every upstream step strictly decreases the
remaining-step rank, so the pump exits within a bounded number of its own
steps even if no further frame ever arrives. -/
theorem upstream_bounded_poll (b64 : String → Except PyErr (List Nat)) :
    pollTimeoutSeconds ≤ 1 ∧
    (∀ c : SysState, c.up = .waiting → Step b64 .uPollTimeout c { c with up := UpPC.check }) ∧
    (∀ c : SysState, c.up = .check → c.ended = true →
      Step b64 .uCheckExit c { c with up := UpPC.done }) ∧
    (∀ l a b, Step b64 l a b → isUpLab l = true → a.ended = true →
      uRank b.up < uRank a.up) := by
  refine ⟨by norm_num [pollTimeoutSeconds], fun c h => Step.uPollTimeout c h,
    fun c h he => Step.uCheckExit c h he, ?_⟩
  intro l a b h hl he
  cases h with
  | uCheckExit c h1 h2 => simp [uRank, h1]
  | uCheckEnter c h1 h2 => rw [he] at h2; exact Bool.noConfusion h2
  | uPollTimeout c h1 => simp [uRank, h1]
  | uRecvTimeout c rest h1 hq => simp [uRank, h1]
  | uRecvDisconnect c rest h1 hq => simp [uRank, h1]
  | uRecvExn c rest h1 hq => simp [uRank, h1]
  | uRecvMsg c m rest items h1 hq hh => simp [uRank, h1]
  | uRecvMsgCrash c m rest e h1 hq hh => simp [uRank, h1]
  | dEvent c e rest h1 hq ht => simp [isUpLab] at hl
  | dTerminal c e rest h1 hq ht => simp [isUpLab] at hl
  | dStreamEnd c rest h1 hq => simp [isUpLab] at hl
  | dRaise c rest h1 hq => simp [isUpLab] at hl
  | finallyClose c h1 hg => simp [isUpLab] at hl

/-- A waiting state with the flag set, used to instantiate C7. -/
def c7waiting : SysState := ⟨.waiting, .reading, [], [], true, 0, [], .gathering⟩

/-- Witness for C7: the poll timeout fires from a concrete waiting state
and strictly decreases the pump's remaining-step rank. -/
theorem upstream_bounded_poll_witness :
    Step b64decodeOk .uPollTimeout c7waiting { c7waiting with up := UpPC.check } ∧
    uRank ({ c7waiting with up := UpPC.check } : SysState).up < uRank c7waiting.up :=
  ⟨(upstream_bounded_poll b64decodeOk).2.1 c7waiting rfl,
   (upstream_bounded_poll b64decodeOk).2.2.2 .uPollTimeout c7waiting
     { c7waiting with up := UpPC.check } (Step.uPollTimeout c7waiting rfl) rfl rfl⟩
